import Mathlib

/-!
Verification of the carve core (pkg/carve/carve.go): schema derivation from a
compiled regular expression's named capture groups, line matching into rows of
captured substrings, and the batching Arrow writer.

The Go regexp engine is external to the repository; it is modelled as an
abstract `Regexp` value carrying its `SubexpNames()` list and its
`FindStringSubmatch` function, together with the engine's documented
guarantees (a submatch slice has one entry per group plus the whole match,
and `SubexpNames()[0]` is always the empty string). Everything else is a
direct translation of the Go source.
-/

namespace Carve

/-- Arrow data types used by the core; only `arrow.BinaryTypes.String` occurs. -/
inductive ArrowType where
  | string
deriving DecidableEq

/-- An `arrow.Field`: a name and a type. -/
structure Field where
  name : String
  dtype : ArrowType
deriving DecidableEq

/-- An `arrow.Schema`: the ordered field list (metadata is always nil in carve). -/
structure Schema where
  fields : List Field
deriving DecidableEq

/-- A compiled `*regexp.Regexp`, abstractly: its `SubexpNames()` output and its
`FindStringSubmatch` function. `find_length` and `names_head` are the Go
regexp package's documented guarantees: a non-nil submatch slice has exactly
`len(SubexpNames())` entries (whole match at index 0, one per capture group
after), and `SubexpNames()[0]` is always `""`. A nil `*regexp.Regexp` pointer
is modelled as `Option.none` at use sites. -/
structure Regexp where
  names : List String
  find : String → Option (List String)
  find_length : ∀ s m, find s = some m → m.length = names.length
  names_head : names.head? = some ""

/-- ExtractSchema builds an Arrow schema from the named capture groups in the
regex. Direct translation of `ExtractSchema` in carve.go: nil regexp is an
error; the loop over `SubexpNames()[1:]` skips empty names and collects a
String-typed field per named group; zero named groups is an error. -/
def ExtractSchema : Option Regexp → Except String Schema
  | none => Except.error "nil regexp"
  | some re =>
    let fields :=
      ((re.names.drop 1).filter (fun n => n ≠ "")).map
        (fun n => Field.mk n ArrowType.string)
    if fields.length = 0 then
      Except.error "pattern must contain named capture groups"
    else
      Except.ok (Schema.mk fields)

/-- ExtractValues returns regex capture groups for the line. Translation of the
`string` branch of the generic `ExtractValues[T ~string | ~[]byte]` (the
`[]byte` branch is the same algorithm on byte slices): nil regexp returns the
nil sentinel, a non-matching line returns the nil sentinel, and a match
returns entries `m[1] .. m[len(m)-1]` of the submatch slice, i.e. every
capture group, named or not. -/
def ExtractValues (line : String) (re : Option Regexp) : Option (List String) :=
  match re with
  | none => none
  | some r =>
    match r.find line with
    | none => none
    | some m => some (m.drop 1)

/-- ParseLine returns regex capture groups for the line; non-matching lines
return nil. Direct translation: it delegates to `ExtractValues[string]`. -/
def ParseLine (line : String) (re : Option Regexp) : Option (List String) :=
  ExtractValues line re

/-- The compiled pattern `(?P<a>\w+)-(?P<b>\d+)` from the spec's examples. The
engine's outputs on the example lines: `"foo-123"` matches with submatch
slice `["foo-123", "foo", "123"]`; `"bad"` does not match (no such subject
appears in the example set, so every other line is reported as a non-match). -/
def patAB : Regexp where
  names := ["", "a", "b"]
  find := fun s =>
    if s = "foo-123" then some ["foo-123", "foo", "123"] else none
  find_length := by
    intro s m h
    by_cases hs : s = "foo-123" <;> simp [hs] at h
    subst h
    rfl
  names_head := rfl

/-- The compiled pattern `(?P<a>\w+)-(\d+)`: one named group followed by one
unnamed group. The engine's output on the example line: `"foo-123"` matches
with submatch slice `["foo-123", "foo", "123"]`. -/
def patMixed : Regexp where
  names := ["", "a", ""]
  find := fun s =>
    if s = "foo-123" then some ["foo-123", "foo", "123"] else none
  find_length := by
    intro s m h
    by_cases hs : s = "foo-123" <;> simp [hs] at h
    subst h
    rfl
  names_head := rfl

/-- The compiled pattern `(?P<a>x?)`: its single group can match the empty
string, and the engine matches the empty string at position 0 of every
subject, yielding the submatch slice `["", ""]`. -/
def patOpt : Regexp where
  names := ["", "a"]
  find := fun _ => some ["", ""]
  find_length := by
    intro s m h
    simp at h
    subst h
    rfl
  names_head := rfl

/-- A `memory.Allocator`; allocation behaviour is not observable in the core,
so the only value models every allocator (`memory.DefaultAllocator` included). -/
inductive Allocator where
  | default
deriving DecidableEq

/-- ArrowWriter writes record batches with flushing to limit memory usage.
A `*array.StringBuilder` is modelled by the list of values appended to it
since it was (re)created. Go's `int` fields become `Int` for the configured
`maxRows` (which may be zero or negative) and `Nat` for `rowsInBatch`, which
the API only ever increments from 0 or resets to 0. -/
structure ArrowWriter where
  schema : Schema
  builders : List (List String)
  mem : Allocator
  maxRows : Int
  rowsInBatch : Nat
deriving DecidableEq

/-- An `arrow.Record` as produced by `array.NewRecord(schema, arrays, rows)`:
the schema, one column per array (a String column is its list of values), and
the explicitly passed row count. -/
structure Record where
  schema : Schema
  columns : List (List String)
  numRows : Nat
deriving DecidableEq

/-- NewArrowWriter creates a writer that buffers rows up to maxRows per batch.
Direct translation: a nil allocator falls back to `memory.DefaultAllocator`,
and one fresh empty StringBuilder is created per schema field. -/
def NewArrowWriter (schema : Schema) (mem : Option Allocator) (maxRows : Int) :
    ArrowWriter :=
  { schema := schema
    builders := List.replicate schema.fields.length []
    mem := mem.getD Allocator.default
    maxRows := maxRows
    rowsInBatch := 0 }

/-- The loop `for i, v := range values { w.builders[i].Append(v) }`: value `i`
goes to builder `i`. Indexing a missing builder is a Go runtime panic,
modelled as `none`; builders beyond the values are left untouched. -/
def appendToBuilders : List (List String) → List String → Option (List (List String))
  | bs, [] => some bs
  | [], _ :: _ => none
  | b :: bs, v :: vs =>
    (appendToBuilders bs vs).map (fun bs' => (b ++ [v]) :: bs')

/-- Append adds a row of string values to the current batch. Direct
translation: each value is appended to its builder positionally, then
`rowsInBatch` is incremented; a panic in the loop (row longer than the
builder list) aborts the call as `none` before the increment. -/
def ArrowWriter.Append (w : ArrowWriter) (values : List String) :
    Option ArrowWriter :=
  (appendToBuilders w.builders values).map
    (fun bs => { w with builders := bs, rowsInBatch := w.rowsInBatch + 1 })

/-- ShouldFlush returns true if the buffered rows exceed the flush interval:
`w.maxRows > 0 && w.rowsInBatch >= w.maxRows`. The method body contains no
assignment, so the state comes back unchanged in the second component. -/
def ArrowWriter.ShouldFlush (w : ArrowWriter) : Bool × ArrowWriter :=
  (decide (0 < w.maxRows) && decide (w.maxRows ≤ (w.rowsInBatch : Int)), w)

/-- Rows returns the number of rows currently buffered. The method body
contains no assignment, so the state comes back unchanged. -/
def ArrowWriter.Rows (w : ArrowWriter) : Nat × ArrowWriter :=
  (w.rowsInBatch, w)

/-- Flush returns a record batch containing buffered rows and resets builders.
Direct translation: each builder is finalized into its column array and
replaced by a fresh empty builder, the Record is assembled from the schema,
the arrays and `int64(w.rowsInBatch)`, and `rowsInBatch` is reset to 0
(`Release` calls manage reference counts and have no modelled effect). -/
def ArrowWriter.Flush (w : ArrowWriter) : Record × ArrowWriter :=
  ({ schema := w.schema, columns := w.builders, numRows := w.rowsInBatch },
   { w with builders := List.replicate w.builders.length [], rowsInBatch := 0 })

/-- The per-line protocol of the ingestion loop (cmd/carve/main.go and
writer_test.go): append each row, and flush whenever `ShouldFlush()` reports
true, collecting the flushed Records in order. -/
def ingest : ArrowWriter → List (List String) → Option (List Record × ArrowWriter)
  | w, [] => some ([], w)
  | w, r :: rs =>
    match w.Append r with
    | none => none
    | some w1 =>
      if (w1.ShouldFlush).1 then
        match ingest (w1.Flush).2 rs with
        | none => none
        | some (recs, w2) => some ((w1.Flush).1 :: recs, w2)
      else
        ingest w1 rs

/-- The full protocol: ingest every row, then flush once more at end of input
if `Rows() > 0`, returning all emitted Records in order. -/
def runAll (w : ArrowWriter) (rows : List (List String)) : Option (List Record) :=
  match ingest w rows with
  | none => none
  | some (recs, wf) =>
    if 0 < (wf.Rows).1 then some (recs ++ [(wf.Flush).1]) else some recs

/-- Appending a sequence of rows with no interleaved flushing. -/
def appendAll : ArrowWriter → List (List String) → Option ArrowWriter
  | w, [] => some w
  | w, r :: rs =>
    match w.Append r with
    | none => none
    | some w1 => appendAll w1 rs

/-- The schema of the single-named-group pattern `(?P<a>\w+)`, used as a
concrete instance in witnesses. -/
def schemaA : Schema := Schema.mk [Field.mk "a" ArrowType.string]

/-- A concrete writer state: one field, two buffered rows, maximum 2. -/
def wEx : ArrowWriter :=
  { schema := schemaA
    builders := [["x", "y"]]
    mem := Allocator.default
    maxRows := 2
    rowsInBatch := 2 }

lemma appendToBuilders_isSome (bs : List (List String)) (vs : List String) :
    (appendToBuilders bs vs).isSome ↔ vs.length ≤ bs.length := by
  induction vs generalizing bs with
  | nil => simp [appendToBuilders]
  | cons v vs ih =>
    cases bs with
    | nil => simp [appendToBuilders]
    | cons b bs => simpa [appendToBuilders] using ih bs

lemma appendToBuilders_length (bs bs' : List (List String)) (vs : List String)
    (h : appendToBuilders bs vs = some bs') : bs'.length = bs.length := by
  induction vs generalizing bs bs' with
  | nil =>
    simp only [appendToBuilders] at h
    cases h
    rfl
  | cons v vs ih =>
    cases bs with
    | nil => simp [appendToBuilders] at h
    | cons b bs =>
      simp only [appendToBuilders, Option.map_eq_some'] at h
      obtain ⟨a, ha, hb⟩ := h
      subst hb
      simp [ih bs a ha]

lemma appendToBuilders_each_length (bs bs' : List (List String)) (vs : List String)
    (n : Nat) (hall : ∀ b ∈ bs, b.length = n) (hlen : vs.length = bs.length)
    (h : appendToBuilders bs vs = some bs') : ∀ b ∈ bs', b.length = n + 1 := by
  induction vs generalizing bs bs' with
  | nil =>
    have : bs = [] := by
      cases bs with
      | nil => rfl
      | cons x xs => simp at hlen
    subst this
    simp only [appendToBuilders] at h
    cases h
    simp
  | cons v vs ih =>
    cases bs with
    | nil => simp [appendToBuilders] at h
    | cons b bs =>
      simp only [appendToBuilders, Option.map_eq_some'] at h
      obtain ⟨a, ha, hb⟩ := h
      subst hb
      intro c hc
      rcases List.mem_cons.mp hc with hc | hc
      · subst hc
        have hbn : b.length = n := hall b (List.mem_cons_self b bs)
        simp [hbn]
      · exact ih bs a (fun x hx => hall x (List.mem_cons_of_mem b hx))
          (by simpa using hlen) ha c hc

lemma Append_eq_some (w w' : ArrowWriter) (values : List String)
    (h : w.Append values = some w') :
    w'.rowsInBatch = w.rowsInBatch + 1 ∧ w'.maxRows = w.maxRows ∧
      w'.schema = w.schema ∧ w'.mem = w.mem ∧
      w'.builders.length = w.builders.length ∧
      appendToBuilders w.builders values = some w'.builders := by
  simp only [ArrowWriter.Append, Option.map_eq_some'] at h
  obtain ⟨bs, hbs, hw⟩ := h
  subst hw
  exact ⟨rfl, rfl, rfl, rfl, appendToBuilders_length w.builders bs values hbs, hbs⟩

lemma Append_isSome (w : ArrowWriter) (values : List String) :
    (w.Append values).isSome ↔ values.length ≤ w.builders.length := by
  simp [ArrowWriter.Append, appendToBuilders_isSome]

/-- C3: `Append(values)` performs no row-shape validation of its own: the
builder accesses of the loop are all in range if and only if the row has at
most as many values as the schema has fields (so with the caller's
exactly-one-value-per-field precondition the out-of-range panic is
unreachable), and every completed call increments the buffered row count by
exactly 1 regardless of the row's length. -/
theorem append_no_validation (w : ArrowWriter) (values : List String)
    (hw : w.builders.length = w.schema.fields.length) :
    ((w.Append values).isSome ↔ values.length ≤ w.schema.fields.length) ∧
    ∀ w', w.Append values = some w' → w'.rowsInBatch = w.rowsInBatch + 1 := by
  constructor
  · rw [Append_isSome, hw]
  · intro w' h
    exact (Append_eq_some w w' values h).1

/-- Witness for C3 at a concrete one-field writer and a one-value row. -/
theorem append_no_validation_witness :
    (((NewArrowWriter schemaA none 2).Append ["x"]).isSome ↔
      (["x"] : List String).length ≤ schemaA.fields.length) ∧
    ∀ w', (NewArrowWriter schemaA none 2).Append ["x"] = some w' →
      w'.rowsInBatch = (NewArrowWriter schemaA none 2).rowsInBatch + 1 :=
  append_no_validation (NewArrowWriter schemaA none 2) ["x"] (by rfl)

/-- C5: `ShouldFlush()` is true iff the configured maximum is positive and the
buffered row count has reached or exceeded it, it is always false for a
maximum ≤ 0, and neither `ShouldFlush()` nor `Rows()` mutates the writer. -/
theorem shouldFlush_spec (w : ArrowWriter) :
    ((w.ShouldFlush).1 = true ↔ 0 < w.maxRows ∧ w.maxRows ≤ (w.rowsInBatch : Int)) ∧
    (w.maxRows ≤ 0 → (w.ShouldFlush).1 = false) ∧
    (w.ShouldFlush).2 = w ∧ (w.Rows).2 = w := by
  refine ⟨by simp [ArrowWriter.ShouldFlush], ?_, rfl, rfl⟩
  intro h
  simp only [ArrowWriter.ShouldFlush, Bool.and_eq_false_iff, decide_eq_false_iff_not]
  left
  omega

/-- Witness for C5 at the concrete writer state `wEx`. -/
theorem shouldFlush_spec_witness :
    ((wEx.ShouldFlush).1 = true ↔ 0 < wEx.maxRows ∧ wEx.maxRows ≤ (wEx.rowsInBatch : Int)) ∧
    (wEx.maxRows ≤ 0 → (wEx.ShouldFlush).1 = false) ∧
    (wEx.ShouldFlush).2 = wEx ∧ (wEx.Rows).2 = wEx :=
  shouldFlush_spec wEx

/-- C8: the Line Matcher returns the nil sentinel exactly when the pattern
does not match the line, and any match — zero-length captured substrings
included — is returned as a row of values, never as the sentinel. -/
theorem non_match_sentinel_iff (re : Regexp) (line : String) :
    (ExtractValues line (some re) = none ↔ re.find line = none) ∧
    ∀ m, re.find line = some m → ExtractValues line (some re) = some (m.drop 1) := by
  cases hfind : re.find line with
  | none => simp [ExtractValues, hfind]
  | some m =>
    refine ⟨by simp [ExtractValues, hfind], ?_⟩
    intro m' hm'
    cases hm'
    simp [ExtractValues, hfind]

/-- Witness for C8: the pattern `(?P<a>x?)` matches line `"y"` with an empty
captured substring, and the matcher returns the one-value row `[""]`, not the
sentinel. -/
theorem non_match_sentinel_witness :
    ExtractValues "y" (some patOpt) = some [""] :=
  (non_match_sentinel_iff patOpt "y").2 ["", ""] rfl

/-- C9: reset is idempotent. `Flush` is total in the model (both consecutive
calls succeed by construction), and the second of two consecutive `Flush`
calls with no intervening `Append` returns a Record with zero rows and one
empty column per schema field. -/
theorem flush_reset_idempotent (w : ArrowWriter)
    (h : w.builders.length = w.schema.fields.length) :
    (((w.Flush).2.Flush).1.numRows = 0) ∧
    ((w.Flush).2.Flush).1.columns.length = w.schema.fields.length ∧
    ∀ c ∈ ((w.Flush).2.Flush).1.columns, c = [] := by
  refine ⟨rfl, ?_, ?_⟩
  · simp [ArrowWriter.Flush, h]
  · intro c hc
    simp only [ArrowWriter.Flush] at hc
    exact List.eq_of_mem_replicate hc

/-- Witness for C9 at the concrete writer state `wEx`. -/
theorem flush_reset_idempotent_witness :
    (((wEx.Flush).2.Flush).1.numRows = 0) ∧
    ((wEx.Flush).2.Flush).1.columns.length = wEx.schema.fields.length ∧
    ∀ c ∈ ((wEx.Flush).2.Flush).1.columns, c = [] :=
  flush_reset_idempotent wEx rfl

/-- C10: both pattern-consuming entry points handle a nil compiled pattern:
`ExtractSchema` returns an error rather than a schema, and `ExtractValues`
and `ParseLine` return the nil non-match sentinel for every input line. -/
theorem nil_pattern_handling :
    ExtractSchema none = Except.error "nil regexp" ∧
    ∀ line, ExtractValues line none = none ∧ ParseLine line none = none :=
  ⟨rfl, fun _ => ⟨rfl, rfl⟩⟩

/-- The compiled pattern `(\w+)-(\d+)` from the spec's examples: two capture
groups, neither named. The engine's output on the example line: `"foo-123"`
matches with submatch slice `["foo-123", "foo", "123"]`. -/
def patNone : Regexp where
  names := ["", "", ""]
  find := fun s =>
    if s = "foo-123" then some ["foo-123", "foo", "123"] else none
  find_length := by
    intro s m h
    by_cases hs : s = "foo-123" <;> simp [hs] at h
    subst h
    rfl
  names_head := rfl

/-- C6: for a non-nil compiled pattern, `ExtractSchema` fails with the
SchemaError ("pattern must contain named capture groups") if and only if the
pattern has zero named capture groups; on failure the `Except` carries no
schema by construction. -/
theorem extract_schema_error_iff (re : Regexp) :
    ExtractSchema (some re) = Except.error "pattern must contain named capture groups" ↔
      (re.names.drop 1).filter (fun n => n ≠ "") = [] := by
  simp only [ExtractSchema]
  split
  next h =>
    simp only [List.length_map, List.length_eq_zero] at h
    exact ⟨fun _ => h, fun _ => rfl⟩
  next h =>
    simp only [List.length_map] at h
    constructor
    · intro hc
      cases hc
    · intro hf
      rw [hf] at h
      simp at h

/-- Witness for C6: the all-unnamed pattern `(\w+)-(\d+)` is rejected with the
SchemaError. -/
theorem extract_schema_error_iff_witness :
    ExtractSchema (some patNone) = Except.error "pattern must contain named capture groups" :=
  (extract_schema_error_iff patNone).mpr (by decide)

/-- C7: for a compiled pattern with at least one named capture group,
`ExtractSchema` returns exactly the pattern's named-group identifiers in
capture-group order, each typed as String, with unnamed groups skipped. -/
theorem extract_schema_named_groups (re : Regexp)
    (h : (re.names.drop 1).filter (fun n => n ≠ "") ≠ []) :
    ExtractSchema (some re) =
      Except.ok (Schema.mk (((re.names.drop 1).filter (fun n => n ≠ "")).map
        (fun n => Field.mk n ArrowType.string))) := by
  simp only [ExtractSchema]
  split
  next h0 =>
    exfalso
    simp only [List.length_map, List.length_eq_zero] at h0
    exact h h0
  next => rfl

/-- Witness for C7: the pattern `(?P<a>\w+)-(?P<b>\d+)` yields exactly the two
String-typed fields `a`, `b` in that order. -/
theorem extract_schema_named_groups_witness :
    ExtractSchema (some patAB) =
      Except.ok (Schema.mk [Field.mk "a" ArrowType.string, Field.mk "b" ArrowType.string]) :=
  (extract_schema_named_groups patAB (by decide)).trans rfl

/-- Counterexample to C1 as stated: against the mixed pattern `(?P<a>\w+)-(\d+)`
the matcher returns one value per capture group, named or not, so the row for
line `"foo-123"` has 2 values while the schema derived from the pattern has
only 1 field. -/
theorem row_length_vs_schema_counterexample :
    ParseLine "foo-123" (some patMixed) = some ["foo", "123"] ∧
    ExtractSchema (some patMixed) = Except.ok (Schema.mk [Field.mk "a" ArrowType.string]) ∧
    (["foo", "123"] : List String).length ≠ [Field.mk "a" ArrowType.string].length :=
  ⟨rfl, rfl, by decide⟩

/-- C1 amended: the Line Matcher returns either the non-match sentinel or the
ordered list of captured substrings with exactly one value per capture group
of the pattern — named or unnamed — in pattern order; the row has as many
values as the derived schema has fields when every group of the pattern is
named (for a pattern with unnamed groups the row is longer than the schema). -/
theorem extract_values_row_shape (re : Regexp) (line : String) :
    ExtractValues line (some re) = none ∨
    ∃ m, re.find line = some m ∧ ExtractValues line (some re) = some (m.drop 1) ∧
      (m.drop 1).length + 1 = re.names.length ∧
      ((∀ n ∈ re.names.drop 1, n ≠ "") → ∀ sch,
        ExtractSchema (some re) = Except.ok sch → (m.drop 1).length = sch.fields.length) := by
  cases hfind : re.find line with
  | none =>
    left
    simp [ExtractValues, hfind]
  | some m =>
    right
    refine ⟨m, rfl, by simp [ExtractValues, hfind], ?_, ?_⟩
    · have hm : m.length = re.names.length := re.find_length line m hfind
      have hne : re.names ≠ [] := by
        intro h
        rw [h] at hm
        have := re.names_head
        rw [h] at this
        cases this
      have hpos : 0 < re.names.length := List.length_pos.mpr hne
      simp only [List.length_drop]
      omega
    · intro hall sch hsch
      have hfilter : (re.names.drop 1).filter (fun n => n ≠ "") = re.names.drop 1 := by
        rw [List.filter_eq_self]
        intro a ha
        simpa using hall a ha
      simp only [ExtractSchema, hfilter] at hsch
      split at hsch
      · cases hsch
      next h0 =>
        cases hsch
        have hm : m.length = re.names.length := re.find_length line m hfind
        simp only [List.length_map, List.length_drop] at h0 ⊢
        omega

/-- Witness for the amended C1 at the all-named pattern `(?P<a>\w+)-(?P<b>\d+)`
and the spec's example line. -/
theorem extract_values_row_shape_witness :
    ExtractValues "foo-123" (some patAB) = none ∨
    ∃ m, patAB.find "foo-123" = some m ∧
      ExtractValues "foo-123" (some patAB) = some (m.drop 1) ∧
      (m.drop 1).length + 1 = patAB.names.length ∧
      ((∀ n ∈ patAB.names.drop 1, n ≠ "") → ∀ sch,
        ExtractSchema (some patAB) = Except.ok sch → (m.drop 1).length = sch.fields.length) :=
  extract_values_row_shape patAB "foo-123"

lemma appendAll_spec (rows : List (List String)) (w : ArrowWriter)
    (hb : w.builders.length = w.schema.fields.length)
    (hlen : ∀ b ∈ w.builders, b.length = w.rowsInBatch)
    (hrows : ∀ r ∈ rows, r.length = w.schema.fields.length) :
    ∃ w', appendAll w rows = some w' ∧
      w'.schema = w.schema ∧ w'.maxRows = w.maxRows ∧
      w'.builders.length = w.builders.length ∧
      w'.rowsInBatch = w.rowsInBatch + rows.length ∧
      ∀ b ∈ w'.builders, b.length = w'.rowsInBatch := by
  induction rows generalizing w with
  | nil =>
    exact ⟨w, rfl, rfl, rfl, rfl, by simp, hlen⟩
  | cons r rs ih =>
    have hr : r.length = w.schema.fields.length := hrows r (List.mem_cons_self r rs)
    have hsome : (w.Append r).isSome := by
      rw [Append_isSome, hb]
      exact hr.le
    obtain ⟨w1, hw1⟩ := Option.isSome_iff_exists.mp hsome
    obtain ⟨hrb1, hmax1, hsch1, _, hblen1, hbs1⟩ := Append_eq_some w w1 r hw1
    have hlen1 : ∀ b ∈ w1.builders, b.length = w1.rowsInBatch := by
      intro b hbmem
      rw [hrb1]
      exact appendToBuilders_each_length w.builders w1.builders r w.rowsInBatch hlen
        (by rw [hr, ← hb]) hbs1 b hbmem
    obtain ⟨w', h1, h2, h3, h4, h5, h6⟩ := ih w1
      (by rw [hblen1, hsch1]; exact hb)
      hlen1
      (by intro r' hr'; rw [hsch1]; exact hrows r' (List.mem_cons_of_mem r hr'))
    refine ⟨w', ?_, ?_, ?_, ?_, ?_, h6⟩
    · simp only [appendAll, hw1]
      exact h1
    · rw [h2, hsch1]
    · rw [h3, hmax1]
    · rw [h4, hblen1]
    · rw [h5, hrb1]
      simp only [List.length_cons]
      omega

/-- C2: from a fresh writer, after any sequence of appends of rows with
exactly one value per schema field, `Flush` returns a Record with exactly one
column per schema field, each column of length equal to the buffered row
count at the moment of the call, the Record's row count equal to that
buffered count, and afterwards the buffered row count is 0 and every builder
is empty. -/
theorem flush_shape (schema : Schema) (mem : Option Allocator) (maxRows : Int)
    (rows : List (List String))
    (hrows : ∀ r ∈ rows, r.length = schema.fields.length) :
    ∃ w, appendAll (NewArrowWriter schema mem maxRows) rows = some w ∧
      (w.Flush).1.columns.length = schema.fields.length ∧
      (∀ c ∈ (w.Flush).1.columns, c.length = w.rowsInBatch) ∧
      (w.Flush).1.numRows = w.rowsInBatch ∧
      w.rowsInBatch = rows.length ∧
      (w.Flush).2.rowsInBatch = 0 ∧
      ∀ b ∈ (w.Flush).2.builders, b = [] := by
  obtain ⟨w, h1, h2, h3, h4, h5, h6⟩ :=
    appendAll_spec rows (NewArrowWriter schema mem maxRows)
      (by simp [NewArrowWriter])
      (by
        intro b hbmem
        simp only [NewArrowWriter] at hbmem ⊢
        exact congrArg List.length (List.eq_of_mem_replicate hbmem))
      (by intro r hr; exact hrows r hr)

  refine ⟨w, h1, ?_, h6, rfl, ?_, rfl, ?_⟩
  · show w.builders.length = schema.fields.length
    rw [h4]
    simp [NewArrowWriter]
  · rw [h5]
    simp [NewArrowWriter]
  · intro b hbmem
    simp only [ArrowWriter.Flush] at hbmem
    exact List.eq_of_mem_replicate hbmem

/-- Witness for C2: two one-value rows into a fresh one-field writer. -/
theorem flush_shape_witness :
    ∃ w, appendAll (NewArrowWriter schemaA none 10) [["x"], ["y"]] = some w ∧
      (w.Flush).1.columns.length = schemaA.fields.length ∧
      (∀ c ∈ (w.Flush).1.columns, c.length = w.rowsInBatch) ∧
      (w.Flush).1.numRows = w.rowsInBatch ∧
      w.rowsInBatch = ([["x"], ["y"]] : List (List String)).length ∧
      (w.Flush).2.rowsInBatch = 0 ∧
      ∀ b ∈ (w.Flush).2.builders, b = [] :=
  flush_shape schemaA none 10 [["x"], ["y"]] (by decide)

lemma ingest_spec (k : Nat) (hk : 0 < k) :
    ∀ (rows : List (List String)) (w : ArrowWriter),
      w.maxRows = (k : Int) →
      w.rowsInBatch < k →
      (∀ r ∈ rows, r.length ≤ w.builders.length) →
      ∃ recs w',
        ingest w rows = some (recs, w') ∧
        recs.map Record.numRows = List.replicate ((w.rowsInBatch + rows.length) / k) k ∧
        w'.rowsInBatch = (w.rowsInBatch + rows.length) % k ∧
        w'.builders.length = w.builders.length := by
  intro rows
  induction rows with
  | nil =>
    intro w hmax hlt hrows
    refine ⟨[], w, rfl, ?_, ?_, rfl⟩
    · simp [Nat.div_eq_of_lt hlt]
    · simp [Nat.mod_eq_of_lt hlt]
  | cons r rs ih =>
    intro w hmax hlt hrows
    have hr : r.length ≤ w.builders.length := hrows r (List.mem_cons_self r rs)
    have hsome : (w.Append r).isSome := (Append_isSome w r).mpr hr
    obtain ⟨w1, hw1⟩ := Option.isSome_iff_exists.mp hsome
    obtain ⟨hrb1, hmax1, _, _, hblen1, _⟩ := Append_eq_some w w1 r hw1
    by_cases hfull : w.rowsInBatch + 1 = k
    · have hsf : (w1.ShouldFlush).1 = true := by
        simp only [ArrowWriter.ShouldFlush, hmax1, hmax, hrb1, Bool.and_eq_true,
          decide_eq_true_eq]
        omega
      obtain ⟨recs, w', hing, hmap, hrb', hblen'⟩ := ih (w1.Flush).2
        (by show w1.maxRows = (k : Int); rw [hmax1, hmax])
        (by show (0 : Nat) < k; exact hk)
        (by
          intro r' hr'
          show r'.length ≤ (List.replicate w1.builders.length ([] : List String)).length
          rw [List.length_replicate, hblen1]
          exact hrows r' (List.mem_cons_of_mem r hr'))
      refine ⟨(w1.Flush).1 :: recs, w', ?_, ?_, ?_, ?_⟩
      · simp only [ingest, hw1, hsf, if_true]
        rw [hing]
      · have hnum : Record.numRows (w1.Flush).1 = k := by
          show w1.rowsInBatch = k
          omega
        rw [List.map_cons, hnum, hmap]
        have harg : w.rowsInBatch + (r :: rs).length = rs.length + k := by
          simp only [List.length_cons]
          omega
        rw [harg, Nat.add_div_right _ hk]
        show k :: List.replicate (((0 : Nat) + rs.length) / k) k = _
        rw [Nat.zero_add]
        rfl
      · rw [hrb']
        show ((0 : Nat) + rs.length) % k = _
        have harg : w.rowsInBatch + (r :: rs).length = rs.length + k := by
          simp only [List.length_cons]
          omega
        rw [harg, Nat.add_mod_right, Nat.zero_add]
      · rw [hblen']
        show (List.replicate w1.builders.length ([] : List String)).length = _
        rw [List.length_replicate, hblen1]
    · have hsf : (w1.ShouldFlush).1 = false := by
        simp only [ArrowWriter.ShouldFlush, hmax1, hmax, hrb1, Bool.and_eq_false_iff,
          decide_eq_false_iff_not]
        right
        omega
      obtain ⟨recs, w', hing, hmap, hrb', hblen'⟩ := ih w1
        (by rw [hmax1, hmax])
        (by omega)
        (by
          intro r' hr'
          rw [hblen1]
          exact hrows r' (List.mem_cons_of_mem r hr'))
      refine ⟨recs, w', ?_, ?_, ?_, ?_⟩
      · simp only [ingest, hw1, hsf, Bool.false_eq_true, if_false]
        exact hing
      · rw [hmap, hrb1]
        have harg : w.rowsInBatch + 1 + rs.length = w.rowsInBatch + (r :: rs).length := by
          simp only [List.length_cons]
          omega
        rw [harg]
      · rw [hrb', hrb1]
        have harg : w.rowsInBatch + 1 + rs.length = w.rowsInBatch + (r :: rs).length := by
          simp only [List.length_cons]
          omega
        rw [harg]
      · rw [hblen', hblen1]

/-- C4: for every positive configured maximum `k`, the protocol that appends
each row, flushes whenever `ShouldFlush()` is true, and flushes once more at
end of input when `Rows() > 0`, emits Records whose row counts are exactly
`k` except possibly the last, which has `total mod k` rows (absent when the
total is evenly divisible by `k`); hence every emitted Record has row count
at most `k`. -/
theorem flush_protocol_sizes (schema : Schema) (mem : Option Allocator)
    (k : Nat) (hk : 0 < k) (rows : List (List String))
    (hrows : ∀ r ∈ rows, r.length = schema.fields.length) :
    ∃ recs, runAll (NewArrowWriter schema mem (k : Int)) rows = some recs ∧
      recs.map Record.numRows =
        List.replicate (rows.length / k) k ++
          (if rows.length % k = 0 then [] else [rows.length % k]) ∧
      ∀ rec ∈ recs, Record.numRows rec ≤ k := by
  obtain ⟨recs, w', hing, hmap, hrb', _⟩ :=
    ingest_spec k hk rows (NewArrowWriter schema mem (k : Int))
      rfl
      hk
      (by
        intro r hr
        show r.length ≤ (List.replicate schema.fields.length ([] : List String)).length
        rw [List.length_replicate]
        exact (hrows r hr).le)
  have hzero : (NewArrowWriter schema mem (k : Int)).rowsInBatch = 0 := rfl
  rw [hzero, Nat.zero_add] at hmap hrb'
  have hmem_k : ∀ rec ∈ recs, Record.numRows rec = k := by
    intro rec hrec
    have : Record.numRows rec ∈ recs.map Record.numRows :=
      List.mem_map_of_mem Record.numRows hrec
    rw [hmap] at this
    exact List.eq_of_mem_replicate this
  by_cases h0 : rows.length % k = 0
  · refine ⟨recs, ?_, ?_, ?_⟩
    · simp only [runAll, hing, ArrowWriter.Rows]
      rw [if_neg]
      rw [hrb', h0]
      omega
    · rw [hmap, h0, if_pos rfl, List.append_nil]
    · intro rec hrec
      exact (hmem_k rec hrec).le
  · refine ⟨recs ++ [(w'.Flush).1], ?_, ?_, ?_⟩
    · simp only [runAll, hing, ArrowWriter.Rows]
      rw [if_pos]
      rw [hrb']
      omega
    · have hnum : Record.numRows (w'.Flush).1 = rows.length % k := by
        show w'.rowsInBatch = rows.length % k
        exact hrb'
      rw [List.map_append, List.map_cons, List.map_nil, hnum, hmap, if_neg h0]
    · intro rec hrec
      rcases List.mem_append.mp hrec with hrec | hrec
      · exact (hmem_k rec hrec).le
      · rcases List.mem_singleton.mp hrec with rfl
        have hnum : Record.numRows (w'.Flush).1 = rows.length % k := hrb'
        rw [hnum]
        exact (Nat.mod_lt rows.length hk).le

/-- Witness for C4: the spec's end-to-end scenario, batch size 2 with rows
`["a"], ["b"], ["c"]`. -/
theorem flush_protocol_sizes_witness :
    ∃ recs, runAll (NewArrowWriter schemaA none ((2 : Nat) : Int)) [["a"], ["b"], ["c"]] = some recs ∧
      recs.map Record.numRows =
        List.replicate (([["a"], ["b"], ["c"]] : List (List String)).length / 2) 2 ++
          (if ([["a"], ["b"], ["c"]] : List (List String)).length % 2 = 0 then []
            else [([["a"], ["b"], ["c"]] : List (List String)).length % 2]) ∧
      ∀ rec ∈ recs, Record.numRows rec ≤ 2 :=
  flush_protocol_sizes schemaA none 2 (by decide) [["a"], ["b"], ["c"]] (by decide)

end Carve
